import Mathlib

/-!
Verification of the Polydictions bot (`src/bot.py`): a shallow embedding of the
event-deduplication loop, the keyword matcher, the subscriber-registry command
handlers and the price formatter, together with theorems settling the spec's
claims about them.

Conventions of the embedding:
* Python strings are Lean `String`s; character-level operations go through
  `String.data`.
* Python's loosely-typed JSON scalars (`None`, strings, numbers) are `PyVal`;
  number values are modelled as rationals.
* `float(...)` is modelled by `pyFloat` / `parseFloat`, returning `none` where
  Python would raise `ValueError`/`TypeError`.
* Side effects (storage saves, chat replies, per-user deliveries) are recorded
  as an explicit trace of `BotAct`s, in program order.
-/

/-- Python-level scalar value for loosely-typed JSON fields
(`None`, strings, numbers; numbers modelled as rationals). -/
inductive PyVal where
  | none
  | str (s : String)
  | num (q : ℚ)
deriving DecidableEq

/-- Python truthiness for the scalar values a volume field can hold:
`None` is falsy, a string is truthy iff nonempty, a number iff nonzero. -/
def pyTruthy : PyVal → Bool
  | PyVal.none => false
  | PyVal.str s => decide (s ≠ "")
  | PyVal.num q => decide (q ≠ 0)

/-- The single-quote character, `chr 39`. -/
def squote : Char := Char.ofNat 39

/-- The double-quote character. -/
def dquote : Char := '"'

/-- Models Python `str.lower()` (ASCII case folding, which covers the data the
bot manipulates). -/
def pyLower (s : String) : String := String.mk (s.data.map Char.toLower)

/-- Models Python `str.strip()`: drop leading and trailing whitespace. -/
def pyStrip (s : String) : String :=
  String.mk (((s.data.dropWhile Char.isWhitespace).reverse.dropWhile Char.isWhitespace).reverse)

/-- Models Python's substring test `needle in hay` on character lists
(`true` for an empty needle, as in Python). -/
def pyInL (needle : List Char) : List Char → Bool
  | [] => needle.isEmpty
  | c :: rest => needle.isPrefixOf (c :: rest) || pyInL needle rest

/-- Models Python's substring test `needle in hay` on strings. -/
def pyIn (needle hay : String) : Bool := pyInL needle.data hay.data

/-- Models Python `s.split(',')` on character lists: always at least one
field, empty fields preserved. -/
def splitCommaL : List Char → List (List Char)
  | [] => [[]]
  | c :: rest =>
    let r := splitCommaL rest
    if c = ',' then [] :: r
    else
      match r with
      | [] => [[c]]
      | h :: t => (c :: h) :: t

/-- Models Python `s.split(',')` on strings. -/
def pySplitComma (s : String) : List String := (splitCommaL s.data).map String.mk

/-- One market nested in an event; the keyword matcher only reads its
`question` text (`bot.py`, `matches_keywords`). -/
structure Market where
  question : String
deriving DecidableEq

/-- An event snapshot fetched from the market API. `id = none` models an
absent `id` key; `volume = none` models an absent `volume` key, and a present
key holds a raw loosely-typed `PyVal`. -/
structure Event where
  id : Option String
  title : String
  markets : List Market
  volume : Option PyVal
deriving DecidableEq

/-- `str(event.get('id', ''))`: the string form of the event id, `""` when the
key is absent. -/
def idStr (e : Event) : String := e.id.getD ""

/-- The searchable text of `matches_keywords` (`bot.py` lines 141-148):
`f"{title} {market_text}"` where the title and every market question are
lowercased and the questions are space-joined. -/
def searchableText (e : Event) : String :=
  pyLower e.title ++ " " ++ String.intercalate " " (e.markets.map (fun m => pyLower m.question))

/-- Models Python's `k[1:-1]`: drop the first and last character. -/
def stripQuotes (k : String) : String := String.mk ((k.data.drop 1).dropLast)

/-- One iteration of the keyword loop in `matches_keywords` (`bot.py` lines
151-166): strip the token, skip it if blank, treat it as a quoted phrase when
it starts and ends with the same quote character, otherwise as a plain
substring token. -/
def tokenMatches (searchable : String) (raw : String) : Bool :=
  let k := pyStrip raw
  if k = "" then false
  else if (k.data.head? = some dquote ∧ k.data.getLast? = some dquote) ∨
          (k.data.head? = some squote ∧ k.data.getLast? = some squote) then
    pyIn (pyLower (stripQuotes k)) searchable
  else
    pyIn (pyLower k) searchable

/-- `PolymarketAPI.matches_keywords` (`bot.py` lines 126-168): an empty filter
list matches everything; otherwise short-circuit OR of `tokenMatches` over the
tokens. -/
def matches_keywords (e : Event) (keywords : List String) : Bool :=
  if keywords.isEmpty then true
  else keywords.any (tokenMatches (searchableText e))

/-- Decimal value of a digit list (most significant first). -/
def natOfDigits (l : List Char) : ℕ := l.foldl (fun n c => 10 * n + (c.toNat - 48)) 0

/-- All characters are ASCII digits. -/
def allDigits (l : List Char) : Bool := l.all Char.isDigit

/-- Unsigned part of Python `float(s)` string parsing, restricted to the plain
decimal forms (`"123"`, `"1.5"`, `".5"`, `"5."`); `none` models a raised
`ValueError`. -/
def parseUnsigned (cs : List Char) : Option ℚ :=
  let ip := cs.takeWhile (fun c => decide (c ≠ '.'))
  let rest := cs.drop ip.length
  match rest with
  | [] => if allDigits ip ∧ ip ≠ [] then some (mkRat (natOfDigits ip) 1) else Option.none
  | _ :: frac =>
    if allDigits ip ∧ allDigits frac ∧ (ip ≠ [] ∨ frac ≠ []) then
      some (mkRat (natOfDigits ip * 10 ^ frac.length + natOfDigits frac) (10 ^ frac.length))
    else Option.none

/-- Models Python `float(s)` on a string: strip whitespace, optional sign,
decimal digits with an optional point; `none` models a raised `ValueError`. -/
def parseFloat (s : String) : Option ℚ :=
  match (pyStrip s).data with
  | [] => Option.none
  | c :: t =>
    if c = '+' then parseUnsigned t
    else if c = '-' then (parseUnsigned t).map Neg.neg
    else parseUnsigned (c :: t)

/-- Models Python `float(v)` on a scalar; `none` models a raised exception. -/
def pyFloat : PyVal → Option ℚ
  | PyVal.none => Option.none
  | PyVal.str s => parseFloat s
  | PyVal.num q => some q

/-- `volume = float(event.get('volume', 0) or 0)` (`bot.py` lines 796 and 821):
absent key defaults to `0`, a falsy value is replaced by `0`, then `float` is
applied; `none` models the `float` call raising. -/
def eventVolume (e : Event) : Option ℚ :=
  let raw := e.volume.getD (PyVal.num 0)
  pyFloat (if pyTruthy raw then raw else PyVal.num 0)

example : eventVolume { id := some "1", title := "", markets := [], volume := some (PyVal.str "abc") } = Option.none := rfl

example : eventVolume { id := some "1", title := "", markets := [], volume := some PyVal.none } = some 0 := rfl

example : eventVolume { id := some "1", title := "", markets := [], volume := Option.none } = some 0 := rfl

example : eventVolume { id := some "1", title := "", markets := [], volume := some (PyVal.str "61000.5") } = some (mkRat 122001 2) := by decide

example : matches_keywords { id := Option.none, title := "BTC hits new high", markets := [], volume := Option.none } ["btc"] = true := by decide

example : matches_keywords { id := Option.none, title := "Senate Election 2026", markets := [], volume := Option.none } ["btc"] = false := by decide

/-! ## Substring bridging lemmas -/

theorem isPrefixOf_iff_append (l₁ l₂ : List Char) :
    l₁.isPrefixOf l₂ = true ↔ ∃ t, l₂ = l₁ ++ t := by
  induction l₁ generalizing l₂ with
  | nil => simp [List.isPrefixOf]
  | cons a as ih =>
    cases l₂ with
    | nil => simp [List.isPrefixOf]
    | cons b bs =>
      simp only [List.isPrefixOf, Bool.and_eq_true, beq_iff_eq, ih, List.cons_append,
        List.cons.injEq]
      constructor
      · rintro ⟨rfl, t, rfl⟩
        exact ⟨t, rfl, rfl⟩
      · rintro ⟨t, rfl, rfl⟩
        exact ⟨rfl, t, rfl⟩

theorem pyInL_iff (n h : List Char) :
    pyInL n h = true ↔ ∃ pre post, h = pre ++ n ++ post := by
  induction h with
  | nil =>
    simp only [pyInL, List.isEmpty_iff]
    constructor
    · rintro rfl
      exact ⟨[], [], rfl⟩
    · rintro ⟨pre, post, hh⟩
      rcases List.append_eq_nil.mp (List.append_eq_nil.mp hh.symm).1 with ⟨-, h2⟩
      exact h2
  | cons c t ih =>
    simp only [pyInL, Bool.or_eq_true, ih, isPrefixOf_iff_append]
    constructor
    · rintro (⟨u, hu⟩ | ⟨pre, post, rfl⟩)
      · exact ⟨[], u, by simpa using hu⟩
      · exact ⟨c :: pre, post, rfl⟩
    · rintro ⟨pre, post, hh⟩
      cases pre with
      | nil =>
        left
        exact ⟨post, by simpa using hh⟩
      | cons p ps =>
        right
        exact ⟨ps, post, by simpa using (by simpa using hh : c = p ∧ t = ps ++ (n ++ post)).2⟩

theorem pyInL_nil (h : List Char) : pyInL [] h = true := by
  cases h <;> rfl

/-! ## Claim-side semantics of the keyword matcher -/

/-- Claim-side notion: `needle` occurs as a contiguous substring of `hay`. -/
def SubstrOf (needle hay : String) : Prop :=
  ∃ pre post, hay.data = pre ++ needle.data ++ post

/-- Claim-side notion: the token starts and ends with the same quote
character (double or single quote). -/
def ClaimQuoted (k : String) : Prop :=
  ∃ q, (q = dquote ∨ q = squote) ∧ k.data.head? = some q ∧ k.data.getLast? = some q

/-- Claim-side per-token matching: the trimmed token is non-blank and, if it
is a symmetric quoted phrase its quote-stripped lowercase text occurs in the
searchable text, otherwise its own lowercase text does. -/
def ClaimTokenMatch (e : Event) (raw : String) : Prop :=
  pyStrip raw ≠ "" ∧
    ((ClaimQuoted (pyStrip raw) ∧
        SubstrOf (pyLower (stripQuotes (pyStrip raw))) (searchableText e)) ∨
      (¬ClaimQuoted (pyStrip raw) ∧ SubstrOf (pyLower (pyStrip raw)) (searchableText e)))

theorem claimQuoted_iff (k : String) :
    ClaimQuoted k ↔
      ((k.data.head? = some dquote ∧ k.data.getLast? = some dquote) ∨
        (k.data.head? = some squote ∧ k.data.getLast? = some squote)) := by
  constructor
  · rintro ⟨q, (rfl | rfl), h1, h2⟩
    · exact Or.inl ⟨h1, h2⟩
    · exact Or.inr ⟨h1, h2⟩
  · rintro (⟨h1, h2⟩ | ⟨h1, h2⟩)
    · exact ⟨dquote, Or.inl rfl, h1, h2⟩
    · exact ⟨squote, Or.inr rfl, h1, h2⟩

theorem tokenMatches_iff (e : Event) (raw : String) :
    tokenMatches (searchableText e) raw = true ↔ ClaimTokenMatch e raw := by
  unfold tokenMatches ClaimTokenMatch
  by_cases hk : pyStrip raw = ""
  · simp [hk]
  · by_cases hq : ClaimQuoted (pyStrip raw)
    · have hq' := (claimQuoted_iff _).mp hq
      simp [hk, hq, hq', pyIn, SubstrOf, pyInL_iff]
    · have hq' : ¬((pyStrip raw).data.head? = some dquote ∧
          (pyStrip raw).data.getLast? = some dquote) ∧
          ¬((pyStrip raw).data.head? = some squote ∧
            (pyStrip raw).data.getLast? = some squote) := by
        constructor
        · intro h
          exact hq ((claimQuoted_iff _).mpr (Or.inl h))
        · intro h
          exact hq ((claimQuoted_iff _).mpr (Or.inr h))
      simp [hk, hq, hq'.1, hq'.2, pyIn, SubstrOf, pyInL_iff]

/-- C6: `matches_keywords(event, [])` is true; otherwise the result is true
iff some token matches, where a symmetric-quoted token is quote-stripped and
tested as a lowercase substring of the searchable text, any other token is
lowercased and tested directly, matching is OR across tokens, and tokens
blank after trimming never match. -/
theorem matches_keywords_spec (e : Event) (ks : List String) :
    matches_keywords e ks = true ↔ (ks = [] ∨ ∃ k ∈ ks, ClaimTokenMatch e k) := by
  unfold matches_keywords
  by_cases h : ks = []
  · simp [h]
  · have hne : ks.isEmpty = false := by
      simpa [List.isEmpty_iff] using h
    simp [hne, h, List.any_eq_true, tokenMatches_iff]

/-- A trimmed-stable nonempty token that is a symmetric quote pair around the
empty string matches every searchable text. -/
theorem tokenMatches_of_empty_phrase (s raw : String)
    (hk : pyStrip raw = raw) (hne : raw ≠ "")
    (hq : (raw.data.head? = some dquote ∧ raw.data.getLast? = some dquote) ∨
      (raw.data.head? = some squote ∧ raw.data.getLast? = some squote))
    (hstrip : pyLower (stripQuotes raw) = "") :
    tokenMatches s raw = true := by
  unfold tokenMatches
  rw [hk, if_neg hne, if_pos hq, hstrip]
  exact pyInL_nil s.data

/-- The one-character string consisting of a double quote. -/
def dquoteStr : String := String.mk [dquote]

/-- The one-character string consisting of a single quote. -/
def squoteStr : String := String.mk [squote]

/-- C10: a filter token that is a lone quote character, or a pair of identical
quotes around the empty string, matches every event. -/
theorem quote_token_matches_all (e : Event) :
    matches_keywords e [dquoteStr] = true ∧ matches_keywords e [squoteStr] = true ∧
      matches_keywords e [dquoteStr ++ dquoteStr] = true ∧
      matches_keywords e [squoteStr ++ squoteStr] = true := by
  refine ⟨?_, ?_, ?_, ?_⟩ <;>
    · unfold matches_keywords
      rw [if_neg (by decide)]
      simp only [List.any_cons, List.any_nil, Bool.or_false]
      exact tokenMatches_of_empty_phrase _ _ (by decide) (by decide)
        (by first | exact Or.inl (by decide) | exact Or.inr (by decide)) (by decide)

/-! ## Deduplication engine (`PolydictionsBot.check_new_events`) -/

/-- How one fetched event is handled by the steady-state loop body
(`bot.py` lines 815-834): skipped for lack of an id, counted as already seen,
suppressed as likely-old high volume (`> 50000`), or newly discovered. -/
inductive EventClass where
  | noId
  | alreadySeen
  | suppressed
  | newlyDiscovered
deriving DecidableEq

/-- Classification of one fetched event against the current seen set, in the
source's order of checks: id truthiness, seen-set membership, then the volume
parse and the `50000` threshold. `none` models the `float` call raising. -/
def classifyEvent (seen : Finset String) (e : Event) : Option EventClass :=
  if idStr e = "" then some EventClass.noId
  else if idStr e ∈ seen then some EventClass.alreadySeen
  else
    match eventVolume e with
    | Option.none => Option.none
    | some v => if v > 50000 then some EventClass.suppressed else some EventClass.newlyDiscovered

/-- The per-tick event loop (`bot.py` lines 815-834), threading the mutable
`seen_events` set and accumulating `new_events` in fetch order. An exception
from the volume parse aborts the loop; the `.error` payload is the seen set at
that moment (additions made before the exception persist in memory). -/
def tickLoop (seen : Finset String) : List Event → Except (Finset String) (Finset String × List Event)
  | [] => Except.ok (seen, [])
  | e :: rest =>
    match classifyEvent seen e with
    | Option.none => Except.error seen
    | some EventClass.noId => tickLoop seen rest
    | some EventClass.alreadySeen => tickLoop seen rest
    | some EventClass.suppressed => tickLoop (insert (idStr e) seen) rest
    | some EventClass.newlyDiscovered =>
      match tickLoop (insert (idStr e) seen) rest with
      | Except.error s => Except.error s
      | Except.ok (s, ns) => Except.ok (s, e :: ns)

/-- The seen set held in memory after a tick loop, whether or not it raised. -/
def tickSeen (r : Except (Finset String) (Finset String × List Event)) : Finset String :=
  match r with
  | Except.error s => s
  | Except.ok (s, _) => s

/-- Subscriber-registry state: the subscribed and paused user-id sets and the
per-user keyword mapping (insertion-ordered dict, modelled as an association
list). -/
structure RegState where
  subscribed : Finset ℤ
  paused : Finset ℤ
  keywords : List (ℤ × List String)
deriving DecidableEq

/-- `d.get(k)` on the keyword dict. -/
def dictGet (d : List (ℤ × List String)) (k : ℤ) : Option (List String) :=
  (d.find? (fun p => decide (p.1 = k))).map Prod.snd

/-- `d[k] = v` on the keyword dict: replace in place, else append. -/
def dictInsert (d : List (ℤ × List String)) (k : ℤ) (v : List String) : List (ℤ × List String) :=
  if (d.find? (fun p => decide (p.1 = k))).isSome then
    d.map (fun p => if p.1 = k then (k, v) else p)
  else d ++ [(k, v)]

/-- `del d[k]` on the keyword dict. -/
def dictErase (d : List (ℤ × List String)) (k : ℤ) : List (ℤ × List String) :=
  d.filter (fun p => decide (p.1 ≠ k))

/-- Observable side effects of the bot, recorded in program order: the four
storage saves, the three kinds of chat replies to a command, and one
notification delivery to one subscriber. -/
inductive BotAct where
  | saveSeen (s : Finset String)
  | saveUsers (s : Finset ℤ)
  | savePaused (s : Finset ℤ)
  | saveKeywords (d : List (ℤ × List String))
  | replySuccess
  | replyInfo
  | replyError
  | notify (user : ℤ) (eventId : String)
deriving DecidableEq

/-- Per-subscriber gate of the fan-out (`bot.py` lines 847-860): skip paused
users, skip when a non-empty keyword list fails the matcher, otherwise deliver. -/
def notifyUser (reg : RegState) (e : Event) (u : ℤ) : Option BotAct :=
  if u ∈ reg.paused then Option.none
  else
    let fl := (dictGet reg.keywords u).getD []
    if fl.isEmpty = false ∧ matches_keywords e fl = false then Option.none
    else some (BotAct.notify u (idStr e))

/-- The delivery attempts of one tick (`bot.py` lines 842-861): for each newly
discovered event in order, for each subscribed user (set iteration modelled as
ascending id order), the gated delivery. -/
def tickNotifications (reg : RegState) (ns : List Event) : List BotAct :=
  ns.flatMap (fun e => (reg.subscribed.sort (· ≤ ·)).filterMap (notifyUser reg e))

/-- One steady-state tick (`bot.py` lines 806-863): run the event loop; if any
new events were found, save the seen set and then fan out notifications; an
exception aborts the tick with no save and no notifications, keeping the
partially updated in-memory seen set. Returns the seen set after the tick and
the trace of effects. -/
def runTick (seen : Finset String) (reg : RegState) (recent : List Event) :
    Finset String × List BotAct :=
  match tickLoop seen recent with
  | Except.error s => (s, [])
  | Except.ok (s, ns) =>
    if ns.isEmpty then (s, [])
    else (s, BotAct.saveSeen s :: tickNotifications reg ns)

/-- The per-tick notifier inputs over a run of consecutive ticks: each tick
contributes its `new_events` list (empty when the tick raised, since the
exception is caught and the loop moves to the next tick). -/
def ticksNewEvents (seen : Finset String) : List (List Event) → List (List Event)
  | [] => []
  | b :: bs =>
    match tickLoop seen b with
    | Except.error s => [] :: ticksNewEvents s bs
    | Except.ok (s, ns) => ns :: ticksNewEvents s bs

/-- One step of the cold-start initialization loop (`bot.py` lines 781-784):
`event_id = event.get('id'); if event_id: seen_events.add(str(event_id))` —
add the id when truthy, with no volume check. -/
def coldStep (s : Finset String) (e : Event) : Finset String :=
  match e.id with
  | some i => if i ≠ "" then insert i s else s
  | Option.none => s

/-- The cold-start seen set (`bot.py` lines 778-786): starting from the empty
set, add `str(event.get('id'))` for every initial event with a truthy id,
with no volume check. -/
def coldSeen (initial : List Event) : Finset String :=
  initial.foldl coldStep ∅

/-- Warm-start gap filling (`bot.py` lines 788-804): for each fetched event
with a truthy id not already seen, parse its volume (which may raise) and add
it to the seen set when the volume exceeds `10000`, counting additions. -/
def warmLoop (seen : Finset String) (added : ℕ) :
    List Event → Except (Finset String) (Finset String × ℕ)
  | [] => Except.ok (seen, added)
  | e :: rest =>
    if idStr e ≠ "" ∧ idStr e ∉ seen then
      match eventVolume e with
      | Option.none => Except.error seen
      | some v =>
        if v > 10000 then warmLoop (insert (idStr e) seen) (added + 1) rest
        else warmLoop seen added rest
    else warmLoop seen added rest

/-- Initialization of `check_new_events` before the polling loop (`bot.py`
lines 778-804): a cold start (empty persisted seen set) adds every fetched id
regardless of volume and always saves; a warm start adds only unseen
high-volume (`> 10000`) events and saves only when something was added. -/
def initEngine (seen : Finset String) (fetched : List Event) :
    Except (Finset String) (Finset String × List BotAct) :=
  if seen = ∅ then
    let s := fetched.foldl coldStep seen
    Except.ok (s, [BotAct.saveSeen s])
  else
    (warmLoop seen 0 fetched).map
      (fun p => (p.1, if 0 < p.2 then [BotAct.saveSeen p.1] else []))

/-! ## Command handlers (subscriber registry) -/

/-- An inbound chat command that mutates (or queries) the registry:
`/start`, `/pause`, `/resume`, `/keywords [arg]` with the raw argument text
(`none` when the command came with no argument). -/
inductive Cmd where
  | start (u : ℤ)
  | pause (u : ℤ)
  | resume (u : ℤ)
  | keywords (u : ℤ) (arg : Option String)
deriving DecidableEq

/-- The command handlers (`bot.py` `cmd_start`, `cmd_pause`, `cmd_resume`,
`cmd_keywords`): each returns the updated registry and its effect trace in
program order (storage saves strictly before the reply that reports success). -/
def runCmd : Cmd → RegState → RegState × List BotAct
  | Cmd.start u, st =>
    let st' := { st with subscribed := insert u st.subscribed }
    (st', [BotAct.saveUsers st'.subscribed, BotAct.replySuccess])
  | Cmd.pause u, st =>
    if u ∈ st.paused then (st, [BotAct.replyInfo])
    else
      let st' := { st with paused := insert u st.paused }
      (st', [BotAct.savePaused st'.paused, BotAct.replySuccess])
  | Cmd.resume u, st =>
    if u ∉ st.paused then (st, [BotAct.replyInfo])
    else
      let st' := { st with paused := st.paused.erase u }
      (st', [BotAct.savePaused st'.paused, BotAct.replySuccess])
  | Cmd.keywords _ Option.none, st => (st, [BotAct.replyInfo])
  | Cmd.keywords u (some raw), st =>
    let input := pyStrip raw
    if pyLower input = "clear" then
      if (dictGet st.keywords u).isSome then
        let st' := { st with keywords := dictErase st.keywords u }
        (st', [BotAct.saveKeywords st'.keywords, BotAct.replySuccess])
      else (st, [BotAct.replyInfo])
    else
      let ks := ((pySplitComma input).map pyStrip).filter (fun k => decide (k ≠ ""))
      if ks.isEmpty then (st, [BotAct.replyError])
      else
        let st' := { st with keywords := dictInsert st.keywords u ks }
        (st', [BotAct.saveKeywords st'.keywords, BotAct.replySuccess])

/-- The storage write a mutating command is required to have issued before its
success reply, holding the post-state collection it mutated. -/
def requiredSave : Cmd → RegState → BotAct
  | Cmd.start _, st => BotAct.saveUsers st.subscribed
  | Cmd.pause _, st => BotAct.savePaused st.paused
  | Cmd.resume _, st => BotAct.savePaused st.paused
  | Cmd.keywords _ _, st => BotAct.saveKeywords st.keywords

/-! ## Trace checkers -/

/-- Walk a trace carrying whether a seen-set save has occurred yet; a
notification delivered before any save fails the check. -/
def pbnAux : Bool → List BotAct → Bool
  | _, [] => true
  | _, BotAct.saveSeen _ :: r => pbnAux true r
  | saved, BotAct.notify _ _ :: r => saved && pbnAux saved r
  | saved, _ :: r => pbnAux saved r

/-- No delivery in the trace precedes a seen-set save. -/
def persistedBeforeNotify (t : List BotAct) : Bool := pbnAux false t

/-! ## Lemmas about the tick loop -/

theorem classifyEvent_of_empty (s : Finset String) (e : Event) (h : idStr e = "") :
    classifyEvent s e = some EventClass.noId := by
  simp [classifyEvent, h]

theorem classifyEvent_of_mem (s : Finset String) (e : Event) (h1 : idStr e ≠ "")
    (h2 : idStr e ∈ s) : classifyEvent s e = some EventClass.alreadySeen := by
  simp [classifyEvent, h1, h2]

theorem classifyEvent_none_inv (s : Finset String) (e : Event)
    (h : classifyEvent s e = Option.none) :
    idStr e ≠ "" ∧ idStr e ∉ s ∧ eventVolume e = Option.none := by
  unfold classifyEvent at h
  split_ifs at h with h1 h2
  · refine ⟨h1, h2, ?_⟩
    cases hv : eventVolume e with
    | none => rfl
    | some v =>
      rw [hv] at h
      dsimp only at h
      split_ifs at h

theorem classifyEvent_suppressed_inv (s : Finset String) (e : Event)
    (h : classifyEvent s e = some EventClass.suppressed) :
    idStr e ≠ "" ∧ idStr e ∉ s ∧ ∃ v, eventVolume e = some v ∧ v > 50000 := by
  unfold classifyEvent at h
  split_ifs at h with h1 h2
  · simp at h
  · simp at h
  · refine ⟨h1, h2, ?_⟩
    cases hv : eventVolume e with
    | none => rw [hv] at h; simp at h
    | some v =>
      rw [hv] at h
      dsimp only at h
      split_ifs at h with h3
      · exact ⟨v, rfl, h3⟩
      · simp at h

theorem classifyEvent_newly_inv (s : Finset String) (e : Event)
    (h : classifyEvent s e = some EventClass.newlyDiscovered) :
    idStr e ≠ "" ∧ idStr e ∉ s ∧ ∃ v, eventVolume e = some v ∧ v ≤ 50000 := by
  unfold classifyEvent at h
  split_ifs at h with h1 h2
  · simp at h
  · simp at h
  · refine ⟨h1, h2, ?_⟩
    cases hv : eventVolume e with
    | none => rw [hv] at h; simp at h
    | some v =>
      rw [hv] at h
      dsimp only at h
      split_ifs at h with h3
      · simp at h
      · exact ⟨v, rfl, not_lt.mp h3⟩

theorem tickLoop_mono (b : List Event) : ∀ s : Finset String, s ⊆ tickSeen (tickLoop s b) := by
  induction b with
  | nil => intro s; simp [tickLoop, tickSeen]
  | cons e rest ih =>
    intro s
    unfold tickLoop
    cases hc : classifyEvent s e with
    | none => simp [tickSeen]
    | some c =>
      cases c with
      | noId => exact ih s
      | alreadySeen => exact ih s
      | suppressed => exact (Finset.subset_insert _ _).trans (ih _)
      | newlyDiscovered =>
        cases hr : tickLoop (insert (idStr e) s) rest with
        | error s' =>
          have h := ih (insert (idStr e) s)
          rw [hr] at h
          exact (Finset.subset_insert _ _).trans h
        | ok p =>
          have h := ih (insert (idStr e) s)
          rw [hr] at h
          exact (Finset.subset_insert _ _).trans h

theorem tickLoop_mono_ok (b : List Event) (s s' : Finset String) (ns : List Event)
    (h : tickLoop s b = Except.ok (s', ns)) : s ⊆ s' := by
  have := tickLoop_mono b s
  rw [h] at this
  exact this

theorem tickLoop_mono_err (b : List Event) (s s' : Finset String)
    (h : tickLoop s b = Except.error s') : s ⊆ s' := by
  have := tickLoop_mono b s
  rw [h] at this
  exact this

theorem tickLoop_stable (b : List Event) :
    ∀ s : Finset String,
      tickLoop (tickSeen (tickLoop s b)) b = Except.ok (tickSeen (tickLoop s b), []) ∨
        tickLoop (tickSeen (tickLoop s b)) b = Except.error (tickSeen (tickLoop s b)) := by
  induction b with
  | nil => intro s; left; rfl
  | cons e rest ih =>
    intro s
    cases hc : classifyEvent s e with
    | none =>
      right
      have hs : tickSeen (tickLoop s (e :: rest)) = s := by
        rw [tickLoop, hc]
        rfl
      rw [hs]
      rw [tickLoop, hc]
    | some c =>
      cases c with
      | noId =>
        have hid : idStr e = "" := by
          by_contra hid
          by_cases hm : idStr e ∈ s
          · rw [classifyEvent_of_mem s e hid hm] at hc
            simp at hc
          · unfold classifyEvent at hc
            rw [if_neg hid, if_neg hm] at hc
            cases hv : eventVolume e with
            | none => rw [hv] at hc; simp at hc
            | some v =>
              rw [hv] at hc
              dsimp only at hc
              split_ifs at hc <;> simp at hc
        have hs : tickSeen (tickLoop s (e :: rest)) = tickSeen (tickLoop s rest) := by
          rw [tickLoop, hc]
        rw [hs]
        have step : tickLoop (tickSeen (tickLoop s rest)) (e :: rest) =
            tickLoop (tickSeen (tickLoop s rest)) rest := by
          rw [tickLoop, classifyEvent_of_empty _ e hid]
        rw [step]
        exact ih s
      | alreadySeen =>
        have hid : idStr e ≠ "" := by
          intro hid
          rw [classifyEvent_of_empty s e hid] at hc
          simp at hc
        have hmem : idStr e ∈ s := by
          by_contra hm
          unfold classifyEvent at hc
          rw [if_neg hid, if_neg hm] at hc
          cases hv : eventVolume e with
          | none => rw [hv] at hc; simp at hc
          | some v =>
            rw [hv] at hc
            dsimp only at hc
            split_ifs at hc <;> simp at hc
        have hs : tickSeen (tickLoop s (e :: rest)) = tickSeen (tickLoop s rest) := by
          rw [tickLoop, hc]
        rw [hs]
        have step : tickLoop (tickSeen (tickLoop s rest)) (e :: rest) =
            tickLoop (tickSeen (tickLoop s rest)) rest := by
          rw [tickLoop, classifyEvent_of_mem _ e hid ((tickLoop_mono rest s) hmem)]
        rw [step]
        exact ih s
      | suppressed =>
        obtain ⟨hid, -, -⟩ := classifyEvent_suppressed_inv s e hc
        have hs : tickSeen (tickLoop s (e :: rest)) =
            tickSeen (tickLoop (insert (idStr e) s) rest) := by
          rw [tickLoop, hc]
        rw [hs]
        have hmem : idStr e ∈ tickSeen (tickLoop (insert (idStr e) s) rest) :=
          tickLoop_mono rest (insert (idStr e) s) (Finset.mem_insert_self _ _)
        have step : tickLoop (tickSeen (tickLoop (insert (idStr e) s) rest)) (e :: rest) =
            tickLoop (tickSeen (tickLoop (insert (idStr e) s) rest)) rest := by
          rw [tickLoop, classifyEvent_of_mem _ e hid hmem]
        rw [step]
        exact ih (insert (idStr e) s)
      | newlyDiscovered =>
        obtain ⟨hid, -, -⟩ := classifyEvent_newly_inv s e hc
        have hs : tickSeen (tickLoop s (e :: rest)) =
            tickSeen (tickLoop (insert (idStr e) s) rest) := by
          rw [tickLoop, hc]
          cases hr : tickLoop (insert (idStr e) s) rest with
          | error s' => rfl
          | ok p => cases p; rfl
        rw [hs]
        have hmem : idStr e ∈ tickSeen (tickLoop (insert (idStr e) s) rest) :=
          tickLoop_mono rest (insert (idStr e) s) (Finset.mem_insert_self _ _)
        have step : tickLoop (tickSeen (tickLoop (insert (idStr e) s) rest)) (e :: rest) =
            tickLoop (tickSeen (tickLoop (insert (idStr e) s) rest)) rest := by
          rw [tickLoop, classifyEvent_of_mem _ e hid hmem]
        rw [step]
        exact ih (insert (idStr e) s)

theorem tickLoop_new_unseen (b : List Event) :
    ∀ (s s' : Finset String) (ns : List Event), tickLoop s b = Except.ok (s', ns) →
      ∀ e ∈ ns, idStr e ∉ s := by
  induction b with
  | nil =>
    intro s s' ns h e he
    simp only [tickLoop] at h
    cases h
    simp at he
  | cons e0 rest ih =>
    intro s s' ns h e he
    unfold tickLoop at h
    cases hc : classifyEvent s e0 with
    | none => rw [hc] at h; cases h
    | some c =>
      cases c with
      | noId =>
        rw [hc] at h
        exact ih s s' ns h e he
      | alreadySeen =>
        rw [hc] at h
        exact ih s s' ns h e he
      | suppressed =>
        rw [hc] at h
        intro hmem
        exact ih _ s' ns h e he (Finset.mem_insert_of_mem hmem)
      | newlyDiscovered =>
        rw [hc] at h
        cases hr : tickLoop (insert (idStr e0) s) rest with
        | error s2 => rw [hr] at h; simp at h
        | ok p =>
          obtain ⟨s2, ns2⟩ := p
          rw [hr] at h
          have hns : ns = e0 :: ns2 := by
            injection h with h2
            exact (congrArg Prod.snd h2).symm
          subst hns
          rcases List.mem_cons.mp he with rfl | he2
          · exact (classifyEvent_newly_inv s e hc).2.1
          · intro hmem
            exact ih _ s2 ns2 hr e he2 (Finset.mem_insert_of_mem hmem)

theorem classifyEvent_noId_inv (s : Finset String) (e : Event)
    (h : classifyEvent s e = some EventClass.noId) : idStr e = "" := by
  by_contra hid
  unfold classifyEvent at h
  rw [if_neg hid] at h
  by_cases hm : idStr e ∈ s
  · rw [if_pos hm] at h
    simp at h
  · rw [if_neg hm] at h
    cases hv : eventVolume e with
    | none => rw [hv] at h; simp at h
    | some v =>
      rw [hv] at h
      dsimp only at h
      split_ifs at h <;> simp at h

theorem classifyEvent_seen_inv (s : Finset String) (e : Event)
    (h : classifyEvent s e = some EventClass.alreadySeen) :
    idStr e ≠ "" ∧ idStr e ∈ s := by
  have hid : idStr e ≠ "" := by
    intro hid
    rw [classifyEvent_of_empty s e hid] at h
    simp at h
  refine ⟨hid, ?_⟩
  by_contra hm
  unfold classifyEvent at h
  rw [if_neg hid, if_neg hm] at h
  cases hv : eventVolume e with
  | none => rw [hv] at h; simp at h
  | some v =>
    rw [hv] at h
    dsimp only at h
    split_ifs at h <;> simp at h

/-- The steady-state selection predicate of a tick starting from seen set
`s`: a truthy id, unseen, with volume at or below `50000`. -/
def newlyPred (s : Finset String) (e : Event) : Bool :=
  decide (idStr e ≠ "") && decide (idStr e ∉ s) && decide ((eventVolume e).getD 0 ≤ 50000)

theorem newlyPred_insert_congr (seen : Finset String) (e0 : Event) (hid : idStr e0 ≠ "")
    (rest : List Event)
    (hrel : ∀ b ∈ rest, idStr e0 = "" ∨ idStr b = "" ∨ idStr e0 ≠ idStr b) :
    rest.filter (newlyPred (insert (idStr e0) seen)) = rest.filter (newlyPred seen) := by
  apply List.filter_congr
  intro x hx
  rcases hrel x hx with h | h | h
  · exact absurd h hid
  · simp [newlyPred, h]
  · simp [newlyPred, Finset.mem_insert, Ne.symm h]

theorem runTick_fst (seen : Finset String) (reg : RegState) (recent : List Event) :
    (runTick seen reg recent).1 = tickSeen (tickLoop seen recent) := by
  unfold runTick tickSeen
  cases tickLoop seen recent with
  | error s => rfl
  | ok p =>
    obtain ⟨s, ns⟩ := p
    by_cases h : ns.isEmpty <;> simp [h]

/-! ## Claims about the steady-state tick -/

/-- C7: running the same fetched batch in two successive ticks leaves the
seen set unchanged on the second tick and produces no effects at all on the
second tick (in particular zero newly-discovered events and zero
notifications). -/
theorem tick_idempotent_on_same_batch (seen : Finset String) (reg : RegState)
    (batch : List Event) :
    runTick (runTick seen reg batch).1 reg batch = ((runTick seen reg batch).1, []) := by
  rw [runTick_fst seen reg batch]
  rcases tickLoop_stable batch seen with h | h
  · unfold runTick
    rw [h]
    rfl
  · unfold runTick
    rw [h]

/-- C5: in the effect trace of a steady-state tick, no notification delivery
precedes the seen-set save: a delivery can only appear after the save of the
tick's updated seen set. -/
theorem persist_before_notify (seen : Finset String) (reg : RegState) (recent : List Event) :
    persistedBeforeNotify (runTick seen reg recent).2 = true := by
  unfold runTick
  cases tickLoop seen recent with
  | error s => rfl
  | ok p =>
    obtain ⟨s, ns⟩ := p
    by_cases h : ns.isEmpty
    · simp [h, persistedBeforeNotify, pbnAux]
    · simp only [h, if_false, Bool.false_eq_true]
      show pbnAux false (BotAct.saveSeen s :: tickNotifications reg ns) = true
      show pbnAux true (tickNotifications reg ns) = true
      generalize tickNotifications reg ns = t
      induction t with
      | nil => rfl
      | cons a r ihr =>
        cases a <;> simpa [pbnAux] using ihr

/-- C4: on a steady-state tick that completes without error, over a batch
whose (truthy) ids are pairwise distinct: every event with a truthy id ends up
in the updated seen set, and the notifier input is exactly the sublist of the
batch, in fetch order, of events that are unseen at tick start with volume at
or below `50000`; in particular an unseen event with volume above `50000` is
added to seen but excluded from the notifier input. -/
theorem tick_partition_spec :
    ∀ (batch : List Event) (seen s' : Finset String) (ns : List Event),
      tickLoop seen batch = Except.ok (s', ns) →
      batch.Pairwise (fun a b => idStr a = "" ∨ idStr b = "" ∨ idStr a ≠ idStr b) →
      (∀ e ∈ batch, idStr e ≠ "" → idStr e ∈ s') ∧ ns = batch.filter (newlyPred seen) := by
  intro batch
  induction batch with
  | nil =>
    intro seen s' ns h _
    rw [tickLoop] at h
    injection h with h1
    refine ⟨by intro e he; simp at he, ?_⟩
    simpa using (congrArg Prod.snd h1).symm
  | cons e0 rest ih =>
    intro seen s' ns h hp
    rw [tickLoop] at h
    obtain ⟨hrel, hp'⟩ := List.pairwise_cons.mp hp
    cases hc : classifyEvent seen e0 with
    | none => rw [hc] at h; simp at h
    | some c =>
      cases c with
      | noId =>
        rw [hc] at h
        have hid : idStr e0 = "" := classifyEvent_noId_inv seen e0 hc
        obtain ⟨hmem, hfil⟩ := ih seen s' ns h hp'
        refine ⟨?_, ?_⟩
        · intro e he hne
          rcases List.mem_cons.mp he with rfl | he2
          · exact absurd hid hne
          · exact hmem e he2 hne
        · rw [List.filter_cons_of_neg (by simp [newlyPred, hid])]
          exact hfil
      | alreadySeen =>
        rw [hc] at h
        obtain ⟨hid, hmm⟩ := classifyEvent_seen_inv seen e0 hc
        obtain ⟨hmem, hfil⟩ := ih seen s' ns h hp'
        refine ⟨?_, ?_⟩
        · intro e he hne
          rcases List.mem_cons.mp he with rfl | he2
          · exact tickLoop_mono_ok rest seen s' ns h hmm
          · exact hmem e he2 hne
        · rw [List.filter_cons_of_neg (by simp [newlyPred, hmm])]
          exact hfil
      | suppressed =>
        rw [hc] at h
        obtain ⟨hid, hnm, v, hv, hgt⟩ := classifyEvent_suppressed_inv seen e0 hc
        obtain ⟨hmem, hfil⟩ := ih (insert (idStr e0) seen) s' ns h hp'
        refine ⟨?_, ?_⟩
        · intro e he hne
          rcases List.mem_cons.mp he with rfl | he2
          · exact tickLoop_mono_ok rest _ s' ns h (Finset.mem_insert_self _ _)
          · exact hmem e he2 hne
        · rw [List.filter_cons_of_neg (by simp [newlyPred, hv, not_le.mpr hgt])]
          rw [hfil, newlyPred_insert_congr seen e0 hid rest hrel]
      | newlyDiscovered =>
        rw [hc] at h
        obtain ⟨hid, hnm, v, hv, hle⟩ := classifyEvent_newly_inv seen e0 hc
        cases hr : tickLoop (insert (idStr e0) seen) rest with
        | error s2 => rw [hr] at h; simp at h
        | ok p =>
          obtain ⟨s2, ns2⟩ := p
          rw [hr] at h
          have hs2 : s2 = s' := by
            injection h with h2
            exact congrArg Prod.fst h2
          have hns : ns = e0 :: ns2 := by
            injection h with h2
            exact (congrArg Prod.snd h2).symm
          subst hs2
          subst hns
          obtain ⟨hmem, hfil⟩ := ih (insert (idStr e0) seen) s2 ns2 hr hp'
          refine ⟨?_, ?_⟩
          · intro e he hne
            rcases List.mem_cons.mp he with rfl | he2
            · exact tickLoop_mono_ok rest _ s2 ns2 hr (Finset.mem_insert_self _ _)
            · exact hmem e he2 hne
          · rw [List.filter_cons_of_pos (by simp [newlyPred, hid, hnm, hv, hle])]
            rw [hfil, newlyPred_insert_congr seen e0 hid rest hrel]

/-- An empty registry: no subscribers, nobody paused, no keyword filters. -/
def regNone : RegState := { subscribed := ∅, paused := ∅, keywords := [] }

/-- A registry with the single subscriber `1`, not paused, no filters. -/
def regOne : RegState := { subscribed := insert 1 ∅, paused := ∅, keywords := [] }

/-- An unseen event with high volume (`60000 > 50000`): suppressed. -/
def evHighVol : Event :=
  { id := some "9", title := "big", markets := [], volume := some (PyVal.num 60000) }

/-- An unseen event with low volume (`120 ≤ 50000`): newly discovered. -/
def evLowVol : Event :=
  { id := some "5", title := "fresh", markets := [], volume := some (PyVal.num 120) }

/-- An unseen event whose volume field is a truthy non-numeric string. -/
def evBadVol : Event :=
  { id := some "7", title := "odd", markets := [], volume := some (PyVal.str "abc") }

/-- An unseen event with an absent volume field. -/
def evNoVol : Event :=
  { id := some "3", title := "plain", markets := [], volume := Option.none }

/-- C4 witness: at a concrete two-event batch from the empty seen set, the
notifier input equals the low-volume sublist selected by `newlyPred`. -/
theorem tick_partition_spec_w :
    [evLowVol] = [evHighVol, evLowVol].filter (newlyPred ∅) :=
  (tick_partition_spec [evHighVol, evLowVol] ∅ (insert "5" (insert "9" ∅)) [evLowVol] rfl
    (by decide)).2

/-- C1 (amended): on a tick that completes without error, the seen set is
saved exactly when the tick found at least one newly discovered event — the
save of the updated set is then the first effect of the tick; a tick whose
only additions are suppressed high-volume events performs no save. -/
theorem tick_persists_iff_new (seen s' : Finset String) (reg : RegState)
    (recent ns : List Event) (hok : tickLoop seen recent = Except.ok (s', ns)) :
    (ns = [] → ∀ a ∈ (runTick seen reg recent).2, ∀ t, a ≠ BotAct.saveSeen t) ∧
      (ns ≠ [] → (runTick seen reg recent).2.head? = some (BotAct.saveSeen s')) := by
  unfold runTick
  rw [hok]
  dsimp only
  constructor
  · intro hns
    subst hns
    simp
  · intro hns
    rw [if_neg (by simpa [List.isEmpty_iff] using hns)]
    rfl

/-- C1 witness: a tick discovering one low-volume event saves the updated
seen set as its first effect. -/
theorem tick_persists_iff_new_w :
    (runTick ∅ regOne [evLowVol]).2.head? = some (BotAct.saveSeen (insert "5" ∅)) :=
  (tick_persists_iff_new ∅ (insert "5" ∅) regOne [evLowVol] [evLowVol] rfl).2 (by decide)

/-- C1 counterexample: a tick whose only addition is the suppressed
high-volume event `evHighVol` adds its id `"9"` to the seen set but emits no
effects at all — in particular no seen-set save in that tick, refuting the
claim that any addition triggers persistence. -/
theorem tick_suppressed_only_no_persist :
    "9" ∈ (runTick ∅ regNone [evHighVol]).1 ∧ (runTick ∅ regNone [evHighVol]).2 = [] :=
  ⟨by decide, rfl⟩

/-- C3 (amended): a volume field that is absent, null, or an empty string is
treated as zero and the event is still classified; a truthy non-numeric
volume string instead raises, aborting the remainder of the tick (see the
counterexample). -/
theorem falsy_volume_treated_zero (s : Finset String) (e : Event)
    (h : e.volume = Option.none ∨ e.volume = some PyVal.none ∨
      e.volume = some (PyVal.str "")) :
    eventVolume e = some 0 ∧ (classifyEvent s e).isSome = true := by
  have hv : eventVolume e = some 0 := by
    rcases h with h | h | h <;> (unfold eventVolume; rw [h]; rfl)
  refine ⟨hv, ?_⟩
  unfold classifyEvent
  split_ifs with h1 h2
  · rfl
  · rfl
  · rw [hv]
    dsimp only
    rw [if_neg (by norm_num)]
    rfl

/-- C3 witness: an event with an absent volume field is treated as volume
zero and classified. -/
theorem falsy_volume_treated_zero_w :
    eventVolume evNoVol = some 0 ∧ (classifyEvent ∅ evNoVol).isSome = true :=
  falsy_volume_treated_zero ∅ evNoVol (Or.inl rfl)

/-- C3 counterexample: the unseen event `evBadVol`, whose volume field is the
non-numeric string `"abc"`, is not classified — the volume parse raises, the
tick loop aborts with no addition, and the tick emits no save and no
notification — refuting the claim that a non-numeric volume is treated as
zero. -/
theorem nonNumeric_volume_aborts_tick :
    classifyEvent ∅ evBadVol = Option.none ∧
      tickLoop ∅ [evBadVol] = Except.error ∅ ∧
      (runTick ∅ regOne [evBadVol]).2 = [] :=
  ⟨rfl, rfl, rfl⟩

/-! ## Cold-start initialization (C8) -/

theorem coldStep_mono (s : Finset String) (e : Event) : s ⊆ coldStep s e := by
  unfold coldStep
  cases e.id with
  | none => exact subset_refl s
  | some i =>
    dsimp only
    by_cases hi : i ≠ ""
    · rw [if_pos hi]
      exact Finset.subset_insert _ _
    · rw [if_neg hi]

theorem coldFold_mono (l : List Event) : ∀ s : Finset String, s ⊆ l.foldl coldStep s := by
  induction l with
  | nil => intro s; exact subset_refl s
  | cons e rest ih =>
    intro s
    rw [List.foldl_cons]
    exact (coldStep_mono s e).trans (ih (coldStep s e))

theorem mem_coldFold (l : List Event) :
    ∀ (s : Finset String) (e : Event) (i : String), e ∈ l → e.id = some i → i ≠ "" →
      i ∈ l.foldl coldStep s := by
  induction l with
  | nil =>
    intro s e i he
    simp at he
  | cons a rest ih =>
    intro s e i he hid hi
    rw [List.foldl_cons]
    rcases List.mem_cons.mp he with rfl | he2
    · have : i ∈ coldStep s e := by
        unfold coldStep
        rw [hid]
        dsimp only
        rw [if_pos hi]
        exact Finset.mem_insert_self _ _
      exact coldFold_mono rest (coldStep s e) this
    · exact ih (coldStep s a) e i he2 hid hi

theorem ticksNewEvents_unseen (batches : List (List Event)) :
    ∀ (s0 s : Finset String), s0 ⊆ s →
      ∀ nl ∈ ticksNewEvents s batches, ∀ e ∈ nl, idStr e ∉ s0 := by
  induction batches with
  | nil =>
    intro s0 s hss nl hnl
    simp [ticksNewEvents] at hnl
  | cons b bs ih =>
    intro s0 s hss nl hnl
    rw [ticksNewEvents] at hnl
    cases hr : tickLoop s b with
    | error s2 =>
      rw [hr] at hnl
      rcases List.mem_cons.mp hnl with rfl | h2
      · intro e he
        exact absurd he (List.not_mem_nil e)
      · exact ih s0 s2 (hss.trans (tickLoop_mono_err b s s2 hr)) nl h2
    | ok p =>
      obtain ⟨s2, ns⟩ := p
      rw [hr] at hnl
      rcases List.mem_cons.mp hnl with rfl | h2
      · intro e he hmem
        exact tickLoop_new_unseen b s s2 nl hr e he (hss hmem)
      · exact ih s0 s2 (hss.trans (tickLoop_mono_ok b s s2 ns hr)) nl h2

/-- C8: starting from an empty persisted seen set, initialization adds every
truthy id of the initial fetch to the seen set regardless of volume, emits
exactly one effect — the save of that set — and no notification; and over any
subsequent run of poll ticks, no event of any tick's notifier input carries an
id of the initial fetch. -/
theorem cold_start_spec (initial : List Event) (batches : List (List Event)) :
    initEngine ∅ initial =
        Except.ok (coldSeen initial, [BotAct.saveSeen (coldSeen initial)]) ∧
      (∀ e ∈ initial, ∀ i, e.id = some i → i ≠ "" → i ∈ coldSeen initial) ∧
      (∀ nl ∈ ticksNewEvents (coldSeen initial) batches, ∀ e ∈ nl,
        ∀ e0 ∈ initial, ∀ i, e0.id = some i → i ≠ "" → idStr e ≠ i) := by
  refine ⟨?_, ?_, ?_⟩
  · unfold initEngine coldSeen
    rw [if_pos rfl]
  · intro e he i hei hi
    exact mem_coldFold initial ∅ e i he hei hi
  · intro nl hnl e he e0 he0 i hei hi hcontra
    have h1 : idStr e ∉ coldSeen initial :=
      ticksNewEvents_unseen batches (coldSeen initial) (coldSeen initial)
        (subset_refl _) nl hnl e he
    rw [hcontra] at h1
    exact h1 (mem_coldFold initial ∅ e0 i he0 hei hi)

/-- C8 witness: with initial fetch `[evHighVol]` (id "9") and one later tick
fetching `[evLowVol]`, the notified event's id differs from the initial id. -/
theorem cold_start_spec_w : idStr evLowVol ≠ "9" :=
  (cold_start_spec [evHighVol] [[evLowVol]]).2.2 [evLowVol] (by decide) evLowVol (by decide)
    evHighVol (by decide) "9" rfl (by decide)

/-! ## Registry commands (C2) -/

/-- C2: for every registry command and state, the effect trace is either the
save of the mutated collection (with its final value) followed by the success
reply — so storage is written strictly before success is reported — or a
non-success reply with the registry left unchanged and nothing saved. -/
theorem cmd_success_implies_saved (c : Cmd) (st : RegState) :
    (runCmd c st).2 = [requiredSave c (runCmd c st).1, BotAct.replySuccess] ∨
      ((runCmd c st).1 = st ∧
        ((runCmd c st).2 = [BotAct.replyInfo] ∨ (runCmd c st).2 = [BotAct.replyError])) := by
  cases c with
  | start u => left; rfl
  | pause u =>
    by_cases h : u ∈ st.paused
    · right
      simp [runCmd, h]
    · left
      simp [runCmd, requiredSave, h]
  | resume u =>
    by_cases h : u ∈ st.paused
    · left
      simp [runCmd, requiredSave, h]
    · right
      simp [runCmd, h]
  | keywords u arg =>
    cases arg with
    | none =>
      right
      exact ⟨rfl, Or.inl rfl⟩
    | some raw =>
      by_cases h1 : pyLower (pyStrip raw) = "clear"
      · by_cases h2 : (dictGet st.keywords u).isSome
        · left
          simp [runCmd, requiredSave, h1, h2]
        · right
          simp [runCmd, h1, h2]
      · by_cases h3 : (((pySplitComma (pyStrip raw)).map pyStrip).filter
            (fun k => decide (k ≠ ""))).isEmpty
        · right
          simp only [runCmd, if_neg h1]
          rw [if_pos h3]
          exact ⟨rfl, Or.inr rfl⟩
        · left
          simp only [runCmd, if_neg h1]
          rw [if_neg h3]
          rfl


/-- Round a fraction `n / d` (with `d > 0`) to the nearest integer, ties to
even — the rounding used by Python's fixed-point float formatting. -/
def roundHalfEvenInt (n : ℤ) (d : ℕ) : ℤ :=
  let f := Int.fdiv n (d : ℤ)
  let r := n - f * (d : ℤ)
  if 2 * r < (d : ℤ) then f
  else if (d : ℤ) < 2 * r then f + 1
  else if f % 2 = 0 then f else f + 1

/-- Models Python `f"{q:.1f}"` on an exact rational: one digit after the
decimal point, round half to even. -/
def format1f (q : ℚ) : String :=
  let n := roundHalfEvenInt (10 * q.num) q.den
  if n < 0 then "-" ++ toString ((-n).toNat / 10) ++ "." ++ toString ((-n).toNat % 10)
  else toString (n.toNat / 10) ++ "." ++ toString (n.toNat % 10)

/-- `percentage = price * 100 if price <= 1 else price` followed by
`f"{percentage:.1f}%"` (`bot.py` lines 412-413). -/
def pctString (price : ℚ) : String :=
  format1f (if price ≤ 1 then price * 100 else price) ++ "%"

/-- The two-outcome odds lines of `format_event` (`bot.py` lines 408-413):
enumerate the outcome names; a line is emitted only when the price list is
truthy and has an entry at that index. -/
def oddsLines (outcomes : List String) (prices : List ℚ) : List String :=
  (List.range outcomes.length).filterMap
    (fun idx =>
      match outcomes.get? idx with
      | Option.none => Option.none
      | some name =>
        if prices.isEmpty = false ∧ idx < prices.length then
          some ("  • " ++ name ++ ": " ++ pctString (prices.getD idx 0))
        else Option.none)

/-- C9: an outcome price `p ≤ 1` is rendered as `p × 100` to one decimal
place with a percent sign, and a price `p > 1` as `p` itself; concretely,
the price pairs `[0.62, 0.38]` and `[62, 38]` both render as `"62.0%"` and
`"38.0%"`. -/
theorem price_rendering_spec :
    (∀ p : ℚ, p ≤ 1 → pctString p = format1f (p * 100) ++ "%") ∧
      (∀ p : ℚ, 1 < p → pctString p = format1f p ++ "%") ∧
      oddsLines ["Yes", "No"] [mkRat 62 100, mkRat 38 100] =
        ["  • Yes: 62.0%", "  • No: 38.0%"] ∧
      oddsLines ["Yes", "No"] [62, 38] = ["  • Yes: 62.0%", "  • No: 38.0%"] := by
  refine ⟨?_, ?_, ?_, ?_⟩
  · intro p hp
    rw [pctString, if_pos hp]
  · intro p hp
    rw [pctString, if_neg (not_le.mpr hp)]
  · have h62 : pctString (mkRat 62 100) = "62.0%" := by
      rw [pctString, if_pos (by decide)]
      rw [show (mkRat 62 100 : ℚ) * 100 = 62 by rw [Rat.mkRat_eq_div]; norm_num]
      decide
    have h38 : pctString (mkRat 38 100) = "38.0%" := by
      rw [pctString, if_pos (by decide)]
      rw [show (mkRat 38 100 : ℚ) * 100 = 38 by rw [Rat.mkRat_eq_div]; norm_num]
      decide
    have hrw : oddsLines ["Yes", "No"] [mkRat 62 100, mkRat 38 100] =
        ["  • Yes: " ++ pctString (mkRat 62 100), "  • No: " ++ pctString (mkRat 38 100)] :=
      rfl
    rw [hrw, h62, h38]
    decide
  · have h62 : pctString (62 : ℚ) = "62.0%" := by
      rw [pctString, if_neg (by decide)]
      decide
    have h38 : pctString (38 : ℚ) = "38.0%" := by
      rw [pctString, if_neg (by decide)]
      decide
    have hrw : oddsLines ["Yes", "No"] [62, 38] =
        ["  • Yes: " ++ pctString (62 : ℚ), "  • No: " ++ pctString (38 : ℚ)] := rfl
    rw [hrw, h62, h38]
    decide

/-- C9 witness: the fraction-scaling rule applied at the concrete price 0.62. -/
theorem price_rendering_spec_w :
    pctString (mkRat 62 100) = format1f (mkRat 62 100 * 100) ++ "%" :=
  price_rendering_spec.1 (mkRat 62 100) (by decide)
